import Mathlib

/-!
Verification development for the `yek` repository serializer
(`src/lib.rs`): configuration merging, ignore/priority resolution,
binary-file detection, git-recency scoring, and the size-bounded
chunk-assembly engine of `serialize_repo`.

Modeling conventions:
* Rust `String`/`&str` contents are modeled as `List Char`; the Rust
  byte-oriented operations (`str::len`, `str::split_at`) are modeled by
  the UTF-8 byte length of each character, so byte indices and UTF-8
  character-boundary behavior are captured faithfully.
* `str::split_at` panics when the index is not a character boundary;
  this is modeled by an `Option` result (`none` = panic).
* The oversized-file splitting `while` loop of `serialize_repo` is not
  structurally recursive in the source; it is modeled by a
  fuel-indexed recursion (`splitGo`) started with fuel equal to the
  character length of the content.  An iteration that makes no progress
  is a fixed point of the real loop (the remaining text is a suffix of
  itself), so it is flagged `stalled`, which corresponds to the real
  loop running forever.
* External collaborators (the `regex` crate, the filesystem, git) are
  modeled as parameters: a compiled regex is a matcher
  `String → Bool`, `Regex::new` is a parameter `String → Option _`
  (or `String → Option String` for its error message), file reads are
  `Option` values, and the commit-time index is
  `Option (String → Option Nat)`.
-/

namespace Yek

/-! ## Byte-level string model -/

/-- Number of bytes of the UTF-8 encoding of a character (as used by
Rust `str::len` and byte indexing). -/
def utf8Len (c : Char) : Nat :=
  if c.toNat < 0x80 then 1
  else if c.toNat < 0x800 then 2
  else if c.toNat < 0x10000 then 3
  else 4

/-- UTF-8 byte length of a string, Rust `str::len`. -/
def byteLen (s : List Char) : Nat := (s.map utf8Len).sum

/-- Rust `char::is_whitespace`: the Unicode `White_Space` property
(25 code points). -/
def isRustWhitespace (c : Char) : Bool :=
  c.toNat == 0x09 || c.toNat == 0x0A || c.toNat == 0x0B || c.toNat == 0x0C ||
  c.toNat == 0x0D || c.toNat == 0x20 || c.toNat == 0x85 || c.toNat == 0xA0 ||
  c.toNat == 0x1680 || (0x2000 ≤ c.toNat && c.toNat ≤ 0x200A) ||
  c.toNat == 0x2028 || c.toNat == 0x2029 || c.toNat == 0x202F ||
  c.toNat == 0x205F || c.toNat == 0x3000

/-- Rust `str::split_whitespace`: maximal runs of non-whitespace
characters, with whitespace runs discarded. -/
def splitWhitespace : List Char → List (List Char)
  | [] => []
  | c :: cs =>
    if isRustWhitespace c then splitWhitespace cs
    else
      (c :: cs.takeWhile (fun d => !isRustWhitespace d)) ::
        splitWhitespace (cs.dropWhile (fun d => !isRustWhitespace d))
termination_by s => s.length
decreasing_by
  · simp only [List.length_cons]; omega
  · have h : (cs.dropWhile (fun d => !isRustWhitespace d)).length ≤ cs.length :=
      (List.dropWhile_sublist _).length_le
    simp only [List.length_cons]; omega

/-- Rust `str::trim_start`: drop leading whitespace. -/
def trimStart (s : List Char) : List Char := s.dropWhile isRustWhitespace

/-- Rust `str::split_at mid` on the UTF-8 byte index `mid`.  Returns
`none` exactly when the real call panics: when `mid` is not on a
character boundary (or exceeds the byte length). -/
def splitAtByte : Nat → List Char → Option (List Char × List Char)
  | 0, s => some ([], s)
  | _ + 1, [] => none
  | i + 1, c :: cs =>
    if utf8Len c ≤ i + 1 then
      match splitAtByte (i + 1 - utf8Len c) cs with
      | some (a, b) => some (c :: a, b)
      | none => none
    else none

/-- `count_size` from `src/lib.rs`: whitespace-token count in token
mode, UTF-8 byte length otherwise. -/
def count_size (text : List Char) (countTokens : Bool) : Nat :=
  if countTokens then (splitWhitespace text).length else byteLen text

/-! ## Pattern config merger (`build_final_config`) -/

/-- `PriorityRule` from `src/lib.rs` (user-facing, raw pattern
strings). -/
structure PriorityRule where
  score : Int
  patterns : List String

/-- `YekConfig` from `src/lib.rs`.  `ignore_patterns` is the pattern
list of the nested `IgnoreConfig`. -/
structure YekConfig where
  ignore_patterns : List String
  priority_rules : List PriorityRule
  binary_extensions : List String
  output_dir : Option String

/-- `PriorityPattern` from `src/lib.rs`: compiled regexes are modeled
as matchers `String → Bool`. -/
structure PriorityPattern where
  score : Int
  patterns : List (String → Bool)

/-- `FinalConfig` from `src/lib.rs`. -/
structure FinalConfig where
  ignore_patterns : List (String → Bool)
  priority_list : List PriorityPattern

/-- Prefix test on character lists. -/
def isPrefixChars (pat s : List Char) : Bool :=
  match pat, s with
  | [], _ => true
  | _ :: _, [] => false
  | p :: ps, c :: cs => p == c && isPrefixChars ps cs

/-- Suffix test on character lists. -/
def isSuffixChars (pat s : List Char) : Bool :=
  isPrefixChars pat.reverse s.reverse

/-- Substring occurrence test (an unanchored regex literal). -/
def containsSub (pat : List Char) : List Char → Bool
  | [] => pat.isEmpty
  | c :: cs => isPrefixChars pat (c :: cs) || containsSub pat cs

/-- Matcher for an anchored-start regex literal `^p`. -/
def matchStart (p : String) : String → Bool := fun s => isPrefixChars p.data s.data

/-- Matcher for an unanchored regex literal `p`. -/
def matchContains (p : String) : String → Bool := fun s => containsSub p.data s.data

/-- Matcher for an anchored-end regex literal `p$`. -/
def matchEnd (p : String) : String → Bool := fun s => isSuffixChars p.data s.data

/-- Scan for `\.env\..+$`: some position starts with ".env." and at
least one character follows it through the end of the string. -/
def envTailScan : List Char → Bool
  | [] => false
  | c :: cs =>
    (isPrefixChars ['.', 'e', 'n', 'v', '.'] (c :: cs) && decide (5 ≤ cs.length)) ||
      envTailScan cs

/-- Matcher for the default ignore regex `\.env(\..+)?$`. -/
def matchEnv : String → Bool := fun s => isSuffixChars ".env".data s.data || envTailScan s.data

/-- `default_priority_list` from `src/lib.rs`: single tier, score 50,
pattern `^src/`. -/
def default_priority_list : List PriorityPattern :=
  [⟨50, [matchStart "src/"]⟩]

/-- `default_ignore_patterns` from `src/lib.rs`, with each regex
translated to its matcher.  Anchored directory prefixes become
`matchStart`, unanchored literals `matchContains`, anchored suffixes
`matchEnd`, and `\.env(\..+)?$` becomes `matchEnv`. -/
def default_ignore_patterns : List (String → Bool) :=
  [matchStart ".git/", matchStart ".next/", matchStart "node_modules/",
   matchStart "vendor/", matchStart "dist/", matchStart "build/",
   matchStart "out/", matchStart "target/", matchStart "bin/",
   matchStart "obj/", matchStart ".idea/", matchStart ".vscode/",
   matchStart ".vs/", matchStart ".settings/", matchStart ".gradle/",
   matchStart ".mvn/", matchStart ".pytest_cache/", matchStart "__pycache__/",
   matchStart ".sass-cache/", matchStart ".vercel/", matchStart ".turbo/",
   matchStart "coverage/", matchStart "test-results/",
   matchContains ".gitignore", matchContains "pnpm-lock.yaml",
   matchContains "yek.toml", matchContains "package-lock.json",
   matchContains "yarn.lock", matchContains "Cargo.lock",
   matchContains "Gemfile.lock", matchContains "composer.lock",
   matchContains "mix.lock", matchContains "poetry.lock",
   matchContains "Pipfile.lock", matchContains "packages.lock.json",
   matchContains "paket.lock",
   matchEnd ".pyc", matchEnd ".pyo", matchEnd ".pyd", matchEnd ".class",
   matchEnd ".o", matchEnd ".obj", matchEnd ".dll", matchEnd ".exe",
   matchEnd ".so", matchEnd ".dylib", matchEnd ".log", matchEnd ".tmp",
   matchEnd ".temp", matchEnd ".swp", matchEnd ".swo", matchEnd ".DS_Store",
   matchEnd "Thumbs.db", matchEnv, matchEnd ".bak", matchEnd "~"]

/-- The linear scan of `build_final_config` that merges one user rule
into the accumulated priority list: the first tier with an equal score
has its matcher set extended, otherwise a new tier is appended. -/
def mergeRule (score : Int) (newRegexes : List (String → Bool)) :
    List PriorityPattern → List PriorityPattern
  | [] => [⟨score, newRegexes⟩]
  | p :: ps =>
    if p.score == score then ⟨p.score, p.patterns ++ newRegexes⟩ :: ps
    else p :: mergeRule score newRegexes ps

/-- The descending-by-score comparison used by
`merged_priority.sort_by(|a, b| b.score.cmp(&a.score))`. -/
def tierGE (a b : PriorityPattern) : Prop := b.score ≤ a.score

instance : DecidableRel tierGE := fun a b => inferInstanceAs (Decidable (b.score ≤ a.score))

instance : IsTotal PriorityPattern tierGE := ⟨fun a b => le_total b.score a.score⟩

instance : IsTrans PriorityPattern tierGE := ⟨fun _ _ _ h h' => le_trans h' h⟩

/-- `build_final_config` from `src/lib.rs`.  `compile` models
`Regex::new` (`none` = invalid regex, skipped).  The stable Rust
`sort_by` is modeled by `List.insertionSort`, which is proved sorted
and stable below. -/
def build_final_config (compile : String → Option (String → Bool))
    (cfg : Option YekConfig) : FinalConfig :=
  match cfg with
  | none => ⟨default_ignore_patterns, default_priority_list⟩
  | some userCfg =>
    let mergedIgnore :=
      default_ignore_patterns ++ userCfg.ignore_patterns.filterMap compile
    let mergedPriority := userCfg.priority_rules.foldl
      (fun acc userRule =>
        if userRule.patterns.isEmpty then acc
        else mergeRule userRule.score (userRule.patterns.filterMap compile) acc)
      default_priority_list
    ⟨mergedIgnore, List.insertionSort tierGE mergedPriority⟩

/-! ## Ignore/priority resolution (`get_file_priority`) -/

/-- A priority tier matches when any of its patterns matches. -/
def tierMatches (rel : String) (prio : PriorityPattern) : Bool :=
  prio.patterns.any (fun pat => pat rel)

/-- `get_file_priority` from `src/lib.rs`: any ignore match returns
`-1` immediately; otherwise the first tier (in list order) with a
matching pattern gives its score; otherwise the fallback 40. -/
def get_file_priority (rel : String) (ignorePats : List (String → Bool))
    (prioList : List PriorityPattern) : Int :=
  if ignorePats.any (fun pat => pat rel) then -1
  else
    match prioList.find? (fun prio => tierMatches rel prio) with
    | some prio => prio.score
    | none => 40

/-! ## Binary detection (`is_text_file`) -/

/-- `BINARY_FILE_EXTENSIONS` from `src/lib.rs`. -/
def BINARY_FILE_EXTENSIONS : List String :=
  [".jpg", ".pdf", ".mid", ".blend", ".p12", ".rco", ".tgz", ".jpeg", ".mp4",
   ".midi", ".crt", ".p7b", ".ovl", ".bz2", ".png", ".webm", ".aac", ".key",
   ".gbr", ".mo", ".xz", ".gif", ".mov", ".flac", ".pem", ".pcb", ".nib",
   ".dat", ".ico", ".mp3", ".bmp", ".der", ".icns", ".xap", ".lib", ".webp",
   ".wav", ".psd", ".png2", ".xdf", ".psf", ".jar", ".ttf", ".exe", ".ai",
   ".jp2", ".zip", ".pak", ".vhd", ".woff", ".dll", ".eps", ".swc", ".rar",
   ".img3", ".gho", ".woff2", ".bin", ".raw", ".mso", ".7z", ".img4", ".efi",
   ".eot", ".iso", ".tif", ".class", ".gz", ".msi", ".ocx", ".sys", ".img",
   ".tiff", ".apk", ".tar", ".cab", ".scr", ".so", ".dmg", ".3ds", ".com",
   ".elf", ".o", ".max", ".obj", ".drv", ".rom", ".a", ".vhdx", ".fbx",
   ".bpl", ".cpl"]

/-- The extension test of `is_text_file`: the lowercased dotted
extension is in the built-in set or the caller-supplied set. -/
def isBinaryExtension (ext : Option String) (userBinaryExtensions : List String) : Bool :=
  match ext with
  | some e =>
    let dotExt := "." ++ String.mk (e.data.map Char.toLower)
    BINARY_FILE_EXTENSIONS.contains dotExt || userBinaryExtensions.contains dotExt
  | none => false

/-- `is_text_file` from `src/lib.rs`.  `ext` is `path.extension()`;
`fileBytes` models opening and reading the file (`none` = open or read
failure, classified as not text).  The single `read` into a 4096-byte
buffer scans at most the first 4096 bytes; a file is binary when a
zero byte occurs in that prefix. -/
def is_text_file (ext : Option String) (userBinaryExtensions : List String)
    (fileBytes : Option (List Nat)) : Bool :=
  if isBinaryExtension ext userBinaryExtensions then false
  else
    match fileBytes with
    | none => false
    | some bytes => !((bytes.take 4096).any (fun b => b == 0))

/-! ## Config validation (`validate_config`, `load_config_file`) -/

/-- `ConfigError` from `src/lib.rs`. -/
structure ConfigError where
  field : String
  message : String

/-- First block of `validate_config`: errors for invalid ignore
regexes.  `regexErr` models `Regex::new` (`some e` = the compile error
message `e`). -/
def ignoreRegexErrors (regexErr : String → Option String)
    (config : YekConfig) : List ConfigError :=
  config.ignore_patterns.filterMap (fun pattern =>
    (regexErr pattern).map (fun e =>
      ⟨"ignore_patterns", "Invalid regex pattern \x27" ++ pattern ++ "\x27: " ++ e⟩))

/-- Second block of `validate_config`: per-rule errors for a score
outside 0–1000 and for invalid priority regexes. -/
def priorityRuleErrors (regexErr : String → Option String)
    (config : YekConfig) : List ConfigError :=
  (config.priority_rules.map (fun rule =>
    (if rule.score < 0 ∨ rule.score > 1000 then
      [(⟨"priority_rules",
         "Priority score " ++ toString rule.score ++ " must be between 0 and 1000"⟩ : ConfigError)]
     else []) ++
    rule.patterns.filterMap (fun pattern =>
      (regexErr pattern).map (fun e =>
        ⟨"priority_rules", "Invalid regex pattern \x27" ++ pattern ++ "\x27: " ++ e⟩)))).flatten

/-- Third block of `validate_config`: errors for an unusable output
directory.  `pathExists`, `pathIsDir` and `createDirErr` model the
filesystem probes (`createDirErr dir = some e` = `create_dir_all`
fails with message `e`). -/
def outputDirErrors (pathExists pathIsDir : String → Bool)
    (createDirErr : String → Option String) (config : YekConfig) : List ConfigError :=
  match config.output_dir with
  | some dir =>
    if pathExists dir ∧ ¬ pathIsDir dir then
      [(⟨"output_dir",
         "Output path \x27" ++ dir ++ "\x27 exists but is not a directory"⟩ : ConfigError)]
    else if ¬ pathExists dir then
      match createDirErr dir with
      | some e =>
        [(⟨"output_dir",
           "Cannot create output directory \x27" ++ dir ++ "\x27: " ++ e⟩ : ConfigError)]
      | none => []
    else []
  | none => []

/-- `validate_config` from `src/lib.rs`: the three error blocks in
source order. -/
def validate_config (regexErr : String → Option String)
    (pathExists pathIsDir : String → Bool) (createDirErr : String → Option String)
    (config : YekConfig) : List ConfigError :=
  ignoreRegexErrors regexErr config ++ priorityRuleErrors regexErr config ++
    outputDirErrors pathExists pathIsDir createDirErr config

/-- `load_config_file` from `src/lib.rs` after the TOML parse:
`parsed` is the parse result (`none` = read or parse failure).  A
config with any validation error is dropped (`none`), so the caller
falls back to defaults; no error is ever propagated fatally. -/
def load_config_file (regexErr : String → Option String)
    (pathExists pathIsDir : String → Bool) (createDirErr : String → Option String)
    (parsed : Option YekConfig) : Option YekConfig :=
  match parsed with
  | none => none
  | some cfg =>
    if (validate_config regexErr pathExists pathIsDir createDirErr cfg).isEmpty then
      some cfg
    else none

/-! ## Candidate collection (`serialize_repo`, first loop) -/

/-- The "recent" cutoff of `serialize_repo`: now minus 14 days in
seconds (saturating at zero, like `checked_sub` + `unwrap_or(0)`). -/
def twoWeeksAgo (now : Nat) : Nat := now - 14 * 24 * 60 * 60

/-- A collected candidate (`FileEntry` of `src/lib.rs`, with the
content read by the assembly loop attached; `none` = the later
`fs::read_to_string` fails and the file is skipped). -/
structure FileEntry where
  rel : String
  priority : Int
  content : Option (List Char)
deriving DecidableEq, Repr

/-- One regular file met during the `WalkDir` traversal, together with
the filesystem facts the collection loop consults: the gitignore
matcher verdict, `path.extension()`, and the classifier read. -/
structure WalkEntry where
  rel : String
  gitignored : Bool
  ext : Option String
  fileBytes : Option (List Nat)
  content : Option (List Char)

/-- The per-file body of the collection loop of `serialize_repo`
(lines 615-672 of `src/lib.rs`): gitignore check, ignore/priority
resolution (reject on negative), binary check, then the +50 recency
bonus when a commit time at or after the cutoff is recorded for the
relative path. -/
def collectFile (fc : FinalConfig) (binaryExtensions : List String)
    (commitTimes : Option (String → Option Nat)) (now : Nat)
    (e : WalkEntry) : Option FileEntry :=
  if e.gitignored then none
  else
    let priority := get_file_priority e.rel fc.ignore_patterns fc.priority_list
    if priority < 0 then none
    else if !(is_text_file e.ext binaryExtensions e.fileBytes) then none
    else
      let finalPrio :=
        match commitTimes with
        | some times =>
          match times e.rel with
          | some commitTs => if commitTs ≥ twoWeeksAgo now then priority + 50 else priority
          | none => priority
        | none => priority
      some ⟨e.rel, finalPrio, e.content⟩

/-- The ascending-priority comparison of
`files.sort_by(|a, b| a.priority.cmp(&b.priority))`. -/
def fileLE (a b : FileEntry) : Prop := a.priority ≤ b.priority

instance : DecidableRel fileLE := fun a b => inferInstanceAs (Decidable (a.priority ≤ b.priority))

instance : IsTotal FileEntry fileLE := ⟨fun a b => le_total a.priority b.priority⟩

instance : IsTrans FileEntry fileLE := ⟨fun _ _ _ h h' => le_trans h h'⟩

/-- The stable ascending sort by priority applied to the collected
files.  The Rust `sort_by` is a stable sort; `List.insertionSort` is
proved sorted and stable below, which pins the same output. -/
def sortFiles (files : List FileEntry) : List FileEntry :=
  List.insertionSort fileLE files

/-! ## Chunk assembly (`serialize_repo`, second loop, and `write_chunk`) -/

/-- One record of the chunk serialization format of `write_chunk`:
`>>>> `, the display path, a newline, the content verbatim, then a
blank line. -/
def chunkRecord (path : String) (content : List Char) : List Char :=
  (">>>> " ++ path ++ "\n").data ++ content ++ ['\n', '\n']

/-- `chunk_data` built by `write_chunk`: the records of the files of the chunk concatenated with no additional separators. -/
def chunkData (files : List (String × List Char)) : List Char :=
  (files.map (fun pc => chunkRecord pc.1 pc.2)).flatten

/-- Token-mode accumulation of the oversized-file splitter: whole
words (each counted as its byte length plus one for a space) until the
word count would exceed `maxSize`. -/
def tokenChunkChars (maxSize : Nat) (remaining : List Char) : Nat :=
  (((splitWhitespace remaining).take maxSize).map (fun w => byteLen w + 1)).sum

/-- One iteration of the oversized-file splitting loop of
`serialize_repo` (lines 698-733 of `src/lib.rs`): compute the cut
size, fall back to `min maxSize (byteLen remaining)` when it is zero,
split at the byte index (`none` = the `split_at` panic), and trim
leading whitespace off the rest. -/
def splitStep (maxSize : Nat) (countTokens : Bool) (remaining : List Char) :
    Option (List Char × List Char) :=
  let chunkSize0 := if countTokens then tokenChunkChars maxSize remaining else maxSize
  let chunkSize := if chunkSize0 == 0 then min maxSize (byteLen remaining) else chunkSize0
  match splitAtByte (min chunkSize (byteLen remaining)) remaining with
  | some (chunk, rest) => some (chunk, trimStart rest)
  | none => none

/-- Outcome of the splitting loop: `ok` = the loop finished,
`panicked` = a `split_at` call panicked, `stalled` = an iteration made
no progress, i.e. the real loop runs forever. -/
inductive SplitOutcome where
  | ok
  | panicked
  | stalled
deriving DecidableEq, Repr

/-- The splitting loop, fuel-indexed.  Each part is emitted as its own
chunk whose single display path is `rel ++ ":part" ++ part index`,
parts numbered from `part` upward, and the part number is also the
`write_chunk` index.  Fuel `byteLen`-independent: one unit per
iteration suffices because a progressing iteration consumes at least
one character (see `splitLoop`). -/
def splitGo (maxSize : Nat) (countTokens : Bool) (rel : String) :
    Nat → List Char → Nat → List (Nat × List (String × List Char)) × SplitOutcome
  | _, [], _ => ([], .ok)
  | 0, _ :: _, _ => ([], .stalled)
  | fuel + 1, c :: cs, part =>
    match splitStep maxSize countTokens (c :: cs) with
    | none => ([], .panicked)
    | some (chunk, rest) =>
      if rest.length < (c :: cs).length then
        let r := splitGo maxSize countTokens rel fuel rest (part + 1)
        ((part, [(rel ++ ":part" ++ toString part, chunk)]) :: r.1, r.2)
      else ([(part, [(rel ++ ":part" ++ toString part, chunk)])], .stalled)

/-- The oversized-file splitting loop of `serialize_repo`, entered
with the full content of the file and `part = 0`. -/
def splitLoop (maxSize : Nat) (countTokens : Bool) (rel : String)
    (content : List Char) (part : Nat) :
    List (Nat × List (String × List Char)) × SplitOutcome :=
  splitGo maxSize countTokens rel content.length content part

/-- How a run ends: `completed` = all files processed and the trailing
chunk flushed; `earlyExit` = the oversized-file `return Ok(None)`;
`panicked`/`stalled` = the corresponding splitter outcomes. -/
inductive RunOutcome where
  | completed
  | earlyExit
  | panicked
  | stalled
deriving DecidableEq, Repr

/-- The chunks handed to `write_chunk`, each with its index, in
emission order, plus how the run ended. -/
structure RunResult where
  emitted : List (Nat × List (String × List Char))
  outcome : RunOutcome
deriving DecidableEq, Repr

def runOutcomeOfSplit : SplitOutcome → RunOutcome
  | .ok => .earlyExit
  | .panicked => .panicked
  | .stalled => .stalled

/-- The assembly loop of `serialize_repo` (lines 682-771 of
`src/lib.rs`) over the priority-ordered candidate list.  A file whose
`read_to_string` fails (`none`) is skipped.  A file larger than
`maxSize` is split into part-chunks and the run returns immediately —
the pending chunk is dropped unflushed and the remaining candidates
are never touched.  Otherwise the current chunk is flushed first iff
adding the file would push the accumulated size over `maxSize` and the
chunk is nonempty; finally any nonempty trailing chunk is flushed. -/
def assembleLoop (maxSize : Nat) (countTokens : Bool) :
    List (String × Option (List Char)) → List (String × List Char) → Nat → Nat →
    RunResult
  | [], currentChunk, _, chunkIndex =>
    if currentChunk = [] then ⟨[], .completed⟩
    else ⟨[(chunkIndex, currentChunk)], .completed⟩
  | (_, none) :: rest, currentChunk, currentChunkSize, chunkIndex =>
    assembleLoop maxSize countTokens rest currentChunk currentChunkSize chunkIndex
  | (rel, some content) :: rest, currentChunk, currentChunkSize, chunkIndex =>
    let size := count_size content countTokens
    if size > maxSize then
      let split := splitLoop maxSize countTokens rel content 0
      ⟨split.1, runOutcomeOfSplit split.2⟩
    else if currentChunkSize + size > maxSize ∧ currentChunk ≠ [] then
      let r := assembleLoop maxSize countTokens rest [(rel, content)] size (chunkIndex + 1)
      ⟨(chunkIndex, currentChunk) :: r.emitted, r.outcome⟩
    else
      assembleLoop maxSize countTokens rest (currentChunk ++ [(rel, content)])
        (currentChunkSize + size) chunkIndex

/-- `serialize_repo` end to end: collect the candidates, stable-sort
ascending by final priority, then assemble. -/
def serializeRepo (maxSize : Nat) (countTokens : Bool) (fc : FinalConfig)
    (binaryExtensions : List String) (commitTimes : Option (String → Option Nat))
    (now : Nat) (entries : List WalkEntry) : RunResult :=
  let files := entries.filterMap (collectFile fc binaryExtensions commitTimes now)
  let sorted := sortFiles files
  assembleLoop maxSize countTokens (sorted.map (fun f => (f.rel, f.content))) [] 0 0

/-- Concatenation of all emitted chunks in emission order. -/
def emittedData (r : RunResult) : List Char :=
  (r.emitted.map (fun ic => chunkData ic.2)).flatten

/-- Concatenation of the records of the readable files of a candidate
sequence, in order. -/
def fileRecords (files : List (String × Option (List Char))) : List Char :=
  (files.filterMap (fun f => f.2.map (chunkRecord f.1))).flatten

/-- The accumulated size counter of a chunk: the sum of the `count_size` values of its files under the active mode. -/
def chunkTotalSize (countTokens : Bool) (files : List (String × List Char)) : Nat :=
  (files.map (fun pc => count_size pc.2 countTokens)).sum

end Yek

namespace Yek

/-! ## Theorems -/

/-- Claim C9 (refuted — code bug): the part-splitting loop is claimed
to consume at least one unit of remaining content per emitted part and
hence terminate for every maximum size.  With `max_size = 0` (either
counting mode) and content `"a"`, the fallback `chunk_size =
min(max_size, remaining.len())` is `0`, so the iteration emits an
empty part and leaves the remaining content unchanged: the real loop
runs forever (`stalled`), reachable end to end through
`serialize_repo`. -/
theorem c9_split_progress_failure :
    splitStep 0 false ['a'] = some ([], ['a'])
    ∧ splitStep 0 true ['a'] = some ([], ['a'])
    ∧ (splitLoop 0 false "huge.txt" ['a'] 0).2 = SplitOutcome.stalled
    ∧ count_size ['a'] false = 1
    ∧ (serializeRepo 0 false (build_final_config (fun _ => none) none) [] none 0
        [⟨"f.txt", false, some "txt", some [104], some ['a']⟩]).outcome
        = RunOutcome.stalled := by
  decide

/-- Claim C10 (refuted — code bug): in byte mode the cut index
`min(max_size, remaining.len())` is claimed to always fall on a UTF-8
character boundary.  For content `"éé"` (two 2-byte characters, 4
bytes) and `max_size = 3`, the cut index 3 falls inside the second
character, so `str::split_at` panics — modeled by `splitAtByte … =
none` and a `panicked` run outcome, reachable end to end through
`serialize_repo`. -/
theorem c10_byte_split_panics_on_multibyte :
    utf8Len 'é' = 2
    ∧ count_size ['é', 'é'] false = 4
    ∧ splitAtByte 3 ['é', 'é'] = none
    ∧ splitStep 3 false ['é', 'é'] = none
    ∧ assembleLoop 3 false [("f.txt", some ['é', 'é'])] [] 0 0
        = ⟨[], RunOutcome.panicked⟩
    ∧ (serializeRepo 3 false (build_final_config (fun _ => none) none) [] none 0
        [⟨"f.txt", false, some "txt", some [104], some ['é', 'é']⟩]).outcome
        = RunOutcome.panicked := by
  decide

end Yek

namespace Yek

/-- Claim C6: a file whose lowercased extension is in the built-in or
caller-supplied binary-extension set is classified binary (not text)
without consulting the file bytes; otherwise classification consults
at most the first 4096 bytes and is binary iff a zero byte occurs in
that prefix, with an open or read failure (`none`) classified as not
text. -/
theorem c6_binary_detection (ext : Option String) (userExts : List String) :
    (isBinaryExtension ext userExts = true →
      ∀ bytes1 bytes2 : Option (List Nat),
        is_text_file ext userExts bytes1 = false ∧
        is_text_file ext userExts bytes1 = is_text_file ext userExts bytes2)
    ∧ (isBinaryExtension ext userExts = false →
        (∀ bytes : List Nat,
          (is_text_file ext userExts (some bytes) = false ↔ ∃ b ∈ bytes.take 4096, b = 0)
          ∧ is_text_file ext userExts (some bytes)
              = is_text_file ext userExts (some (bytes.take 4096)))
        ∧ is_text_file ext userExts none = false) := by
  constructor
  · intro h bytes1 bytes2
    simp [is_text_file, h]
  · intro h
    refine ⟨fun bytes => ⟨?_, ?_⟩, by simp [is_text_file, h]⟩
    · simp [is_text_file, h, List.any_eq_true]
    · simp [is_text_file, h, List.take_take]

/-- Claim C6 witness: a `.jpg` extension is binary regardless of the
read result. -/
theorem c6_binary_detection_witness :
    is_text_file (some "jpg") [] (some [1]) = false ∧
    is_text_file (some "jpg") [] (some [1]) = is_text_file (some "jpg") [] none :=
  (c6_binary_detection (some "jpg") []).1 (by decide) (some [1]) none

/-- Claim C7: the recency bonus is exactly +50, added to the resolved
priority iff a commit-time index is present and maps the relative path of the file to a timestamp at or after `now` minus 14 days; without
an index the priority is exactly the rule-based value; and a file
resolving to −1 is rejected before the bonus step, for any index. -/
theorem c7_recency_bonus (fc : FinalConfig) (bexts : List String) (now : Nat)
    (e : WalkEntry) :
    (∀ f : FileEntry, collectFile fc bexts none now e = some f →
       f.priority = get_file_priority e.rel fc.ignore_patterns fc.priority_list)
    ∧ (∀ (times : String → Option Nat) (f : FileEntry),
        collectFile fc bexts (some times) now e = some f →
        f.priority = get_file_priority e.rel fc.ignore_patterns fc.priority_list +
          (match times e.rel with
           | some ts => if twoWeeksAgo now ≤ ts then (50 : Int) else 0
           | none => 0))
    ∧ (get_file_priority e.rel fc.ignore_patterns fc.priority_list = -1 →
        ∀ commitTimes, collectFile fc bexts commitTimes now e = none) := by
  refine ⟨?_, ?_, ?_⟩
  · intro f hf
    by_cases hg : e.gitignored <;> simp [collectFile, hg] at hf
    obtain ⟨hp, ht, rfl⟩ := hf
    rfl
  · intro times f hf
    by_cases hg : e.gitignored <;> simp [collectFile, hg] at hf
    obtain ⟨hp, ht, rfl⟩ := hf
    rcases hts : times e.rel with _ | ts <;> simp [hts]
    by_cases hrec : twoWeeksAgo now ≤ ts <;> simp [hrec, ge_iff_le]
  · intro hneg commitTimes
    by_cases hg : e.gitignored <;> simp [collectFile, hg, hneg]

/-- Claim C7 witness: with a commit time inside the window the
priority is the rule value plus 50. -/
theorem c7_recency_bonus_witness :
    (⟨"a.txt", 90, some ['h']⟩ : FileEntry).priority
      = get_file_priority "a.txt" ([] : List (String → Bool)) ([] : List PriorityPattern)
        + (match (fun r => if r = "a.txt" then some 100 else none : String → Option Nat) "a.txt" with
           | some ts => if twoWeeksAgo 100 ≤ ts then (50 : Int) else 0
           | none => 0) :=
  (c7_recency_bonus ⟨[], []⟩ [] 100 ⟨"a.txt", false, some "txt", some [1], some ['h']⟩).2.1
    (fun r => if r = "a.txt" then some 100 else none) ⟨"a.txt", 90, some ['h']⟩ (by decide)

end Yek

namespace Yek

/-- Claim C8: a user configuration with any validation error — an
invalid regular expression among the ignore patterns or priority
rules, a priority score outside 0–1000, or an unusable output
directory — yields a nonempty error list, is discarded wholesale by
`load_config_file` (which returns `none` instead of failing the run),
and the engine then builds the pure-default rule set. -/
theorem c8_invalid_config_discarded (regexErr : String → Option String)
    (pathExists pathIsDir : String → Bool) (createDirErr : String → Option String)
    (cfg : YekConfig)
    (herr : (∃ p ∈ cfg.ignore_patterns, regexErr p ≠ none)
      ∨ (∃ r ∈ cfg.priority_rules, r.score < 0 ∨ r.score > 1000)
      ∨ (∃ r ∈ cfg.priority_rules, ∃ p ∈ r.patterns, regexErr p ≠ none)
      ∨ (∃ d, cfg.output_dir = some d ∧
          ((pathExists d = true ∧ pathIsDir d = false)
            ∨ (pathExists d = false ∧ createDirErr d ≠ none)))) :
    validate_config regexErr pathExists pathIsDir createDirErr cfg ≠ []
    ∧ load_config_file regexErr pathExists pathIsDir createDirErr (some cfg) = none
    ∧ ∀ compile, build_final_config compile none
        = ⟨default_ignore_patterns, default_priority_list⟩ := by
  have hne : validate_config regexErr pathExists pathIsDir createDirErr cfg ≠ [] := by
    rcases herr with ⟨p, hp, he⟩ | ⟨r, hr, hscore⟩ | ⟨r, hr, p, hp, he⟩ | ⟨d, hd, hout⟩
    · obtain ⟨e, he⟩ := Option.ne_none_iff_exists'.mp he
      refine List.ne_nil_of_mem (a :=
        ⟨"ignore_patterns", "Invalid regex pattern \x27" ++ p ++ "\x27: " ++ e⟩) ?_
      refine List.mem_append.mpr (Or.inl (List.mem_append.mpr (Or.inl ?_)))
      exact List.mem_filterMap.mpr ⟨p, hp, by rw [he]; rfl⟩
    · refine List.ne_nil_of_mem (a :=
        ⟨"priority_rules",
         "Priority score " ++ toString r.score ++ " must be between 0 and 1000"⟩) ?_
      refine List.mem_append.mpr (Or.inl (List.mem_append.mpr (Or.inr ?_)))
      refine List.mem_flatten.mpr ⟨_, List.mem_map_of_mem _ hr, ?_⟩
      exact List.mem_append.mpr (Or.inl (by rw [if_pos hscore]; exact List.mem_singleton_self _))
    · obtain ⟨e, he⟩ := Option.ne_none_iff_exists'.mp he
      refine List.ne_nil_of_mem (a :=
        ⟨"priority_rules", "Invalid regex pattern \x27" ++ p ++ "\x27: " ++ e⟩) ?_
      refine List.mem_append.mpr (Or.inl (List.mem_append.mpr (Or.inr ?_)))
      refine List.mem_flatten.mpr ⟨_, List.mem_map_of_mem _ hr, ?_⟩
      exact List.mem_append.mpr (Or.inr (List.mem_filterMap.mpr ⟨p, hp, by rw [he]; rfl⟩))
    · rcases hout with ⟨hex, hdir⟩ | ⟨hex, hcr⟩
      · refine List.ne_nil_of_mem (a :=
          ⟨"output_dir", "Output path \x27" ++ d ++ "\x27 exists but is not a directory"⟩) ?_
        refine List.mem_append.mpr (Or.inr ?_)
        simp only [outputDirErrors, hd]
        rw [if_pos ⟨hex, by simp [hdir]⟩]
        exact List.mem_singleton_self _
      · obtain ⟨e, he⟩ := Option.ne_none_iff_exists'.mp hcr
        refine List.ne_nil_of_mem (a :=
          ⟨"output_dir", "Cannot create output directory \x27" ++ d ++ "\x27: " ++ e⟩) ?_
        refine List.mem_append.mpr (Or.inr ?_)
        simp only [outputDirErrors, hd]
        rw [if_neg (by simp [hex]), if_pos (by simp [hex]), he]
        exact List.mem_singleton_self _
  have hE : (validate_config regexErr pathExists pathIsDir createDirErr cfg).isEmpty = false := by
    rcases h' : validate_config regexErr pathExists pathIsDir createDirErr cfg with _ | ⟨a, l⟩
    · exact absurd h' hne
    · rfl
  exact ⟨hne, by simp [load_config_file, hE], fun compile => rfl⟩

/-- Claim C8 witness: a config whose single ignore pattern fails to
compile is dropped by `load_config_file`. -/
theorem c8_invalid_config_discarded_witness :
    load_config_file (fun p => if p = "[" then some "unclosed" else none)
      (fun _ => true) (fun _ => true) (fun _ => none)
      (some ⟨["["], [], [], none⟩) = none :=
  (c8_invalid_config_discarded (fun p => if p = "[" then some "unclosed" else none)
    (fun _ => true) (fun _ => true) (fun _ => none) ⟨["["], [], [], none⟩
    (Or.inl ⟨"[", List.mem_singleton_self _, by decide⟩)).2.1

end Yek

namespace Yek

/-- The tier list produced by `build_final_config` is ordered
descending by score: the default list is a single tier, and with a
user config the merged list is sorted by
`sort_by(|a, b| b.score.cmp(&a.score))`. -/
theorem build_priority_list_sorted (compile : String → Option (String → Bool))
    (cfg : Option YekConfig) :
    List.Pairwise tierGE (build_final_config compile cfg).priority_list := by
  cases cfg with
  | none => exact List.pairwise_singleton _ _
  | some c => exact List.sorted_insertionSort tierGE _

/-- In a score-descending tier list, the first matching tier has the
greatest score among all matching tiers. -/
theorem find_first_tier_max {rel : String} :
    ∀ {l : List PriorityPattern} {p : PriorityPattern},
      List.Pairwise tierGE l → l.find? (fun t => tierMatches rel t) = some p →
      ∀ q ∈ l, tierMatches rel q = true → q.score ≤ p.score := by
  intro l
  induction l with
  | nil => intro p _ hfind; simp at hfind
  | cons hd tl ih =>
    intro p hpw hfind q hq hmatch
    obtain ⟨hhd, htl⟩ := List.pairwise_cons.mp hpw
    by_cases hm : tierMatches rel hd = true
    · rw [List.find?_cons_of_pos _ hm] at hfind
      obtain rfl : hd = p := by injection hfind
      rcases List.mem_cons.mp hq with rfl | hq
      · exact le_refl _
      · exact hhd q hq
    · rw [List.find?_cons_of_neg _ hm] at hfind
      rcases List.mem_cons.mp hq with rfl | hq
      · exact absurd hmatch hm
      · exact ih htl hfind q hq hmatch

/-- Claim C3: over any resolved rule set, priority resolution returns
−1 as soon as any ignore matcher matches the relative path; otherwise
it returns the score of the first matching tier in the
highest-to-lowest scan (so every matching tier scores at most the
result, and the result is attained by a matching tier); and when no
tier matches it returns the baseline 40. -/
theorem c3_resolution_order (compile : String → Option (String → Bool))
    (cfg : Option YekConfig) (rel : String) :
    ((build_final_config compile cfg).ignore_patterns.any (fun pat => pat rel) = true →
      get_file_priority rel (build_final_config compile cfg).ignore_patterns
        (build_final_config compile cfg).priority_list = -1)
    ∧ ((build_final_config compile cfg).ignore_patterns.any (fun pat => pat rel) = false →
      ((∀ t ∈ (build_final_config compile cfg).priority_list, tierMatches rel t = false) →
        get_file_priority rel (build_final_config compile cfg).ignore_patterns
          (build_final_config compile cfg).priority_list = 40)
      ∧ (∀ t ∈ (build_final_config compile cfg).priority_list, tierMatches rel t = true →
          t.score ≤ get_file_priority rel (build_final_config compile cfg).ignore_patterns
            (build_final_config compile cfg).priority_list)
      ∧ ((∃ t ∈ (build_final_config compile cfg).priority_list, tierMatches rel t = true) →
          ∃ t ∈ (build_final_config compile cfg).priority_list, tierMatches rel t = true ∧
            get_file_priority rel (build_final_config compile cfg).ignore_patterns
              (build_final_config compile cfg).priority_list = t.score)) := by
  constructor
  · intro h
    simp [get_file_priority, h]
  · intro h
    refine ⟨?_, ?_, ?_⟩
    · intro hall
      have hnone : (build_final_config compile cfg).priority_list.find?
          (fun t => tierMatches rel t) = none :=
        List.find?_eq_none.mpr (fun t ht => by simp [hall t ht])
      simp [get_file_priority, h, hnone]
    · intro t ht hm
      rcases hfind : (build_final_config compile cfg).priority_list.find?
          (fun t => tierMatches rel t) with _ | p
      · exact absurd (List.find?_eq_none.mp hfind t ht) (by simp [hm])
      · have hle := find_first_tier_max (build_priority_list_sorted compile cfg) hfind t ht hm
        simpa [get_file_priority, h, hfind] using hle
    · rintro ⟨t, ht, hm⟩
      rcases hfind : (build_final_config compile cfg).priority_list.find?
          (fun t => tierMatches rel t) with _ | p
      · exact absurd (List.find?_eq_none.mp hfind t ht) (by simp [hm])
      · exact ⟨p, List.mem_of_find?_eq_some hfind, List.find?_some hfind,
          by simp [get_file_priority, h, hfind]⟩

/-- Claim C3 witness: under a merged rule set where no tier matches
`README.md` and no ignore matcher matches it, the resolver returns the
baseline 40. -/
theorem c3_resolution_order_witness :
    get_file_priority "README.md"
      (build_final_config (fun p => some (matchStart p))
        (some ⟨[], [⟨100, ["lib/"]⟩], [], none⟩)).ignore_patterns
      (build_final_config (fun p => some (matchStart p))
        (some ⟨[], [⟨100, ["lib/"]⟩], [], none⟩)).priority_list = 40 :=
  ((c3_resolution_order (fun p => some (matchStart p))
      (some ⟨[], [⟨100, ["lib/"]⟩], [], none⟩) "README.md").2 (by decide)).1 (by decide)

end Yek

namespace Yek

/-- Claim C4: the candidate sequence passed to assembly is the
discovery list stable-sorted ascending by final priority: it is a
permutation of the discovered files, pairwise ascending in priority
(so a strictly smaller priority always comes strictly earlier), and
for every priority value the subsequence of files with that priority
keeps its discovery order. -/
theorem c4_stable_ascending_sort (files : List FileEntry) :
    (sortFiles files).Perm files
    ∧ List.Pairwise (fun a b : FileEntry => a.priority ≤ b.priority) (sortFiles files)
    ∧ (∀ i j : Fin (sortFiles files).length,
        ((sortFiles files).get i).priority < ((sortFiles files).get j).priority →
        (i : Nat) < (j : Nat))
    ∧ ∀ p : Int, (sortFiles files).filter (fun e => e.priority == p)
        = files.filter (fun e => e.priority == p) := by
  have hsorted : List.Pairwise (fun a b : FileEntry => a.priority ≤ b.priority)
      (sortFiles files) := List.sorted_insertionSort fileLE files
  refine ⟨List.perm_insertionSort _ _, hsorted, ?_, ?_⟩
  · intro i j hlt
    by_contra hij
    rcases Nat.lt_or_ge (j : Nat) (i : Nat) with hji | hji
    · exact absurd (List.pairwise_iff_get.mp hsorted j i hji) (by omega)
    · have : (i : Nat) = (j : Nat) := by omega
      have : i = j := Fin.ext this
      subst this
      exact lt_irrefl _ hlt
  · intro p
    have hpw : List.Pairwise fileLE (files.filter (fun e => e.priority == p)) := by
      refine List.pairwise_of_forall_mem_list ?_
      intro a ha b hb
      have ha' : a.priority = p := by simpa using List.of_mem_filter ha
      have hb' : b.priority = p := by simpa using List.of_mem_filter hb
      show a.priority ≤ b.priority
      rw [ha', hb']
    have hsub : List.Sublist (files.filter (fun e => e.priority == p)) (sortFiles files) :=
      List.sublist_insertionSort hpw (List.filter_sublist files)
    have hsub2 : List.Sublist (files.filter (fun e => e.priority == p))
        ((sortFiles files).filter (fun e => e.priority == p)) := by
      have h' := hsub.filter (fun e => e.priority == p)
      rwa [List.filter_eq_self.mpr (by intro a ha; exact (List.mem_filter.mp ha).2)] at h'
    have hlen : ((sortFiles files).filter (fun e => e.priority == p)).length
        = (files.filter (fun e => e.priority == p)).length :=
      (((List.perm_insertionSort fileLE files).filter _)).length_eq
    exact (hsub2.eq_of_length hlen.symm).symm

/-- Claim C4 witness: three files with priorities 50, 40, 40 sort to
40, 40, 50 with the two 40-priority files keeping discovery order. -/
theorem c4_stable_ascending_sort_witness :
    sortFiles [⟨"src/b.txt", 50, none⟩, ⟨"a.txt", 40, none⟩, ⟨"c.txt", 40, none⟩]
        = [⟨"a.txt", 40, none⟩, ⟨"c.txt", 40, none⟩, ⟨"src/b.txt", 50, none⟩]
    ∧ (sortFiles [⟨"src/b.txt", 50, none⟩, ⟨"a.txt", 40, none⟩, ⟨"c.txt", 40, none⟩]).filter
        (fun e => e.priority == 40)
        = [⟨"src/b.txt", 50, none⟩, ⟨"a.txt", 40, none⟩, ⟨"c.txt", 40, none⟩].filter
          (fun e => e.priority == 40) :=
  ⟨by decide,
   (c4_stable_ascending_sort
      [⟨"src/b.txt", 50, none⟩, ⟨"a.txt", 40, none⟩, ⟨"c.txt", 40, none⟩]).2.2.2 40⟩

end Yek

namespace Yek

/-- `chunkData` distributes over list append. -/
theorem chunkData_append (a b : List (String × List Char)) :
    chunkData (a ++ b) = chunkData a ++ chunkData b := by
  simp [chunkData]

/-- `emittedData` of a cons-result splits off the head chunk. -/
theorem emittedData_cons (x : Nat × List (String × List Char))
    (l : List (Nat × List (String × List Char))) (o : RunOutcome) :
    emittedData ⟨x :: l, o⟩ = chunkData x.2 ++ emittedData ⟨l, o⟩ := by
  simp [emittedData]

/-- Every part emitted by the splitting loop is a single-file chunk
labeled `rel ++ ":part" ++ its index`, and the part indices are
consecutive from the starting part number. -/
theorem splitGo_parts (m : Nat) (ct : Bool) (rel : String) :
    ∀ (fuel : Nat) (rem : List Char) (part : Nat),
      ((splitGo m ct rel fuel rem part).1.map Prod.fst
        = List.range' part (splitGo m ct rel fuel rem part).1.length)
      ∧ ∀ e ∈ (splitGo m ct rel fuel rem part).1,
          ∃ c, e.2 = [(rel ++ ":part" ++ toString e.1, c)] := by
  intro fuel
  induction fuel with
  | zero =>
    intro rem part
    cases rem with
    | nil => simp [splitGo]
    | cons c cs => simp [splitGo]
  | succ fuel ih =>
    intro rem part
    cases rem with
    | nil => simp [splitGo]
    | cons c cs =>
      rcases hstep : splitStep m ct (c :: cs) with _ | ⟨chunk, rest⟩
      · simp [splitGo, hstep]
      · by_cases hlt : rest.length < cs.length + 1
        · obtain ⟨ihr, ihe⟩ := ih rest (part + 1)
          refine ⟨?_, ?_⟩
          · simp only [splitGo, hstep, List.length_cons, if_pos hlt, List.map_cons,
              List.range'_succ]
            exact congrArg (part :: ·) ihr
          · intro e he
            simp only [splitGo, hstep, List.length_cons, if_pos hlt, List.mem_cons] at he
            rcases he with rfl | he
            · exact ⟨chunk, rfl⟩
            · exact ihe e he
        · refine ⟨?_, ?_⟩
          · simp only [splitGo, hstep, List.length_cons, if_neg hlt]
            simp [List.range'_succ]
          · intro e he
            simp only [splitGo, hstep, List.length_cons, if_neg hlt,
              List.mem_singleton] at he
            rcases he with rfl
            exact ⟨chunk, rfl⟩

end Yek

namespace Yek

/-- Claim C1: whenever a file whose size under the active mode exceeds
the maximum is met during assembly (and the splitter completes), the
run returns exactly the split parts of that file with outcome `earlyExit`:
independently of the pending chunk (never flushed) and of all later
candidates (never touched); the parts are single-file chunks labeled
`rel ++ ":part" ++ i` with indices numbered consecutively from 0. -/
theorem c1_oversized_early_termination (maxSize : Nat) (ct : Bool) (rel : String)
    (content : List Char) (rest : List (String × Option (List Char)))
    (chunk : List (String × List Char)) (sz idx : Nat)
    (hbig : count_size content ct > maxSize)
    (hok : (splitLoop maxSize ct rel content 0).2 = SplitOutcome.ok) :
    assembleLoop maxSize ct ((rel, some content) :: rest) chunk sz idx
      = ⟨(splitLoop maxSize ct rel content 0).1, RunOutcome.earlyExit⟩
    ∧ (splitLoop maxSize ct rel content 0).1.map Prod.fst
        = List.range (splitLoop maxSize ct rel content 0).1.length
    ∧ ∀ e ∈ (splitLoop maxSize ct rel content 0).1,
        ∃ c, e.2 = [(rel ++ ":part" ++ toString e.1, c)] := by
  refine ⟨?_, ?_, ?_⟩
  · simp only [assembleLoop, if_pos hbig]
    rw [hok]
    rfl
  · rw [List.range_eq_range']
    exact (splitGo_parts maxSize ct rel content.length content 0).1
  · exact (splitGo_parts maxSize ct rel content.length content 0).2

/-- Claim C1 witness: a 10-byte file with max size 4 splits into three
parts and the run ends immediately, dropping the later candidate. -/
theorem c1_oversized_early_termination_witness :
    assembleLoop 4 false
        [("huge.txt", some ("0123456789".data)), ("after.txt", some ("xx".data))] [] 0 0
      = ⟨(splitLoop 4 false "huge.txt" ("0123456789".data) 0).1, RunOutcome.earlyExit⟩ :=
  (c1_oversized_early_termination 4 false "huge.txt" ("0123456789".data)
    [("after.txt", some ("xx".data))] [] 0 0 (by decide) (by decide)).1

end Yek

namespace Yek

/-- When the assembly loop completes (no oversized file met), the
concatenation of all emitted chunks is the data of the pending chunk
followed by one record per readable input file, in input order. -/
theorem assembleLoop_completed_data (m : Nat) (ct : Bool) :
    ∀ (files : List (String × Option (List Char))) (chunk : List (String × List Char))
      (sz idx : Nat),
      (assembleLoop m ct files chunk sz idx).outcome = RunOutcome.completed →
      emittedData (assembleLoop m ct files chunk sz idx)
        = chunkData chunk ++ fileRecords files := by
  intro files
  induction files with
  | nil =>
    intro chunk sz idx _
    by_cases hc : chunk = []
    · simp [assembleLoop, hc, emittedData, chunkData, fileRecords]
    · simp [assembleLoop, hc, emittedData, chunkData, fileRecords]
  | cons f rest ih =>
    obtain ⟨rel, oc⟩ := f
    intro chunk sz idx h
    cases oc with
    | none =>
      have hrec := ih chunk sz idx (by simpa [assembleLoop] using h)
      simpa [assembleLoop, fileRecords] using hrec
    | some content =>
      by_cases hbig : count_size content ct > m
      · exfalso
        simp only [assembleLoop, if_pos hbig] at h
        rcases hs : (splitLoop m ct rel content 0).2 <;> rw [hs] at h <;>
          simp [runOutcomeOfSplit] at h
      · by_cases hflush : sz + count_size content ct > m ∧ chunk ≠ []
        · have h' : (assembleLoop m ct rest [(rel, content)]
              (count_size content ct) (idx + 1)).outcome = RunOutcome.completed := by
            simpa [assembleLoop, if_neg hbig, if_pos hflush] using h
          have hrec := ih [(rel, content)] (count_size content ct) (idx + 1) h'
          calc emittedData (assembleLoop m ct ((rel, some content) :: rest) chunk sz idx)
              = chunkData chunk ++ emittedData (assembleLoop m ct rest [(rel, content)]
                  (count_size content ct) (idx + 1)) := by
                simp only [assembleLoop, if_neg hbig, if_pos hflush]
                exact emittedData_cons (idx, chunk) _ _
            _ = chunkData chunk ++ (chunkData [(rel, content)] ++ fileRecords rest) := by
                rw [hrec]
            _ = chunkData chunk ++ fileRecords ((rel, some content) :: rest) := by
                simp [chunkData, fileRecords]
        · have h' : (assembleLoop m ct rest (chunk ++ [(rel, content)])
              (sz + count_size content ct) idx).outcome = RunOutcome.completed := by
            simpa [assembleLoop, if_neg hbig, if_neg hflush] using h
          have hrec := ih (chunk ++ [(rel, content)]) (sz + count_size content ct) idx h'
          have heq : emittedData (assembleLoop m ct ((rel, some content) :: rest) chunk sz idx)
              = emittedData (assembleLoop m ct rest (chunk ++ [(rel, content)])
                  (sz + count_size content ct) idx) := by
            simp only [assembleLoop, if_neg hbig, if_neg hflush]
          rw [heq, hrec, chunkData_append]
          simp [chunkData, fileRecords, List.append_assoc]

/-- When the assembly loop completes, the emitted chunk indices are
consecutive from the starting index. -/
theorem assembleLoop_completed_indices (m : Nat) (ct : Bool) :
    ∀ (files : List (String × Option (List Char))) (chunk : List (String × List Char))
      (sz idx : Nat),
      (assembleLoop m ct files chunk sz idx).outcome = RunOutcome.completed →
      (assembleLoop m ct files chunk sz idx).emitted.map Prod.fst
        = List.range' idx (assembleLoop m ct files chunk sz idx).emitted.length := by
  intro files
  induction files with
  | nil =>
    intro chunk sz idx _
    by_cases hc : chunk = []
    · simp [assembleLoop, hc]
    · simp [assembleLoop, hc, List.range'_succ]
  | cons f rest ih =>
    obtain ⟨rel, oc⟩ := f
    intro chunk sz idx h
    cases oc with
    | none =>
      have hrec := ih chunk sz idx (by simpa [assembleLoop] using h)
      simpa [assembleLoop] using hrec
    | some content =>
      by_cases hbig : count_size content ct > m
      · exfalso
        simp only [assembleLoop, if_pos hbig] at h
        rcases hs : (splitLoop m ct rel content 0).2 <;> rw [hs] at h <;>
          simp [runOutcomeOfSplit] at h
      · by_cases hflush : sz + count_size content ct > m ∧ chunk ≠ []
        · have h' : (assembleLoop m ct rest [(rel, content)]
              (count_size content ct) (idx + 1)).outcome = RunOutcome.completed := by
            simpa [assembleLoop, if_neg hbig, if_pos hflush] using h
          have hrec := ih [(rel, content)] (count_size content ct) (idx + 1) h'
          simp only [assembleLoop, if_neg hbig, if_pos hflush, List.map_cons,
            List.length_cons, List.range'_succ]
          exact congrArg (idx :: ·) hrec
        · have h' : (assembleLoop m ct rest (chunk ++ [(rel, content)])
              (sz + count_size content ct) idx).outcome = RunOutcome.completed := by
            simpa [assembleLoop, if_neg hbig, if_neg hflush] using h
          have hrec := ih (chunk ++ [(rel, content)]) (sz + count_size content ct) idx h'
          simpa [assembleLoop, if_neg hbig, if_neg hflush] using hrec

/-- Claim C2: when the run completes (the oversized-file early
termination was not triggered), concatenating all emitted chunks — in
index order, the indices being consecutive from 0 — reproduces exactly
one record (`">>>> "`, display path, newline, content verbatim, blank
line, no extra separators) per readable candidate file, in the order
of the ascending-priority candidate sequence. -/
theorem c2_round_trip (m : Nat) (ct : Bool) (files : List FileEntry)
    (h : (assembleLoop m ct ((sortFiles files).map (fun f => (f.rel, f.content)))
        [] 0 0).outcome = RunOutcome.completed) :
    emittedData (assembleLoop m ct ((sortFiles files).map (fun f => (f.rel, f.content))) [] 0 0)
      = fileRecords ((sortFiles files).map (fun f => (f.rel, f.content)))
    ∧ (assembleLoop m ct ((sortFiles files).map (fun f => (f.rel, f.content)))
        [] 0 0).emitted.map Prod.fst
        = List.range (assembleLoop m ct ((sortFiles files).map (fun f => (f.rel, f.content)))
            [] 0 0).emitted.length
    ∧ List.Pairwise (fun a b : FileEntry => a.priority ≤ b.priority) (sortFiles files) := by
  refine ⟨?_, ?_, List.sorted_insertionSort fileLE files⟩
  · simpa [chunkData] using assembleLoop_completed_data m ct _ [] 0 0 h
  · rw [List.range_eq_range']
    exact assembleLoop_completed_indices m ct _ [] 0 0 h

/-- Claim C2 witness: two 5-byte files under max 1000 produce one
chunk whose data is the two records in ascending-priority order. -/
theorem c2_round_trip_witness :
    emittedData (assembleLoop 1000 false
        ((sortFiles [⟨"src/b.txt", 50, some ("bbbbb".data)⟩, ⟨"a.txt", 40, some ("aaaaa".data)⟩]).map
          (fun f => (f.rel, f.content))) [] 0 0)
      = fileRecords ((sortFiles [⟨"src/b.txt", 50, some ("bbbbb".data)⟩,
          ⟨"a.txt", 40, some ("aaaaa".data)⟩]).map (fun f => (f.rel, f.content))) :=
  (c2_round_trip 1000 false
      [⟨"src/b.txt", 50, some ("bbbbb".data)⟩, ⟨"a.txt", 40, some ("aaaaa".data)⟩]
      (by decide)).1

end Yek

namespace Yek

/-- Size invariant of the assembly loop: starting from a state whose
running total matches the pending chunk and satisfies the multi-file
bound, every emitted chunk holding more than one file has accumulated
size at most the maximum. -/
theorem assembleLoop_chunk_bound (m : Nat) (ct : Bool) :
    ∀ (files : List (String × Option (List Char))) (chunk : List (String × List Char))
      (sz idx : Nat),
      sz = chunkTotalSize ct chunk →
      (1 < chunk.length → sz ≤ m) →
      ∀ e ∈ (assembleLoop m ct files chunk sz idx).emitted,
        1 < e.2.length → chunkTotalSize ct e.2 ≤ m := by
  intro files
  induction files with
  | nil =>
    intro chunk sz idx hsz hbound e he hlen
    by_cases hc : chunk = []
    · simp [assembleLoop, hc] at he
    · simp only [assembleLoop, if_neg hc, List.mem_singleton] at he
      subst he
      exact hsz ▸ hbound hlen
  | cons f rest ih =>
    obtain ⟨rel, oc⟩ := f
    intro chunk sz idx hsz hbound e he hlen
    cases oc with
    | none =>
      exact ih chunk sz idx hsz hbound e (by simpa [assembleLoop] using he) hlen
    | some content =>
      by_cases hbig : count_size content ct > m
      · simp only [assembleLoop, if_pos hbig] at he
        obtain ⟨c, hc⟩ := (splitGo_parts m ct rel content.length content 0).2 e he
        rw [hc] at hlen
        simp at hlen
      · by_cases hflush : sz + count_size content ct > m ∧ chunk ≠ []
        · simp only [assembleLoop, if_neg hbig, if_pos hflush, List.mem_cons] at he
          rcases he with rfl | he
          · exact hsz ▸ hbound hlen
          · refine ih [(rel, content)] (count_size content ct) (idx + 1)
              (by simp [chunkTotalSize]) (by simp) e he hlen
        · refine ih (chunk ++ [(rel, content)]) (sz + count_size content ct) idx
            ?_ ?_ e (by simpa [assembleLoop, if_neg hbig, if_neg hflush] using he) hlen
          · simp [chunkTotalSize, hsz]
          · intro _
            by_cases hc : chunk = []
            · subst hc
              simp [chunkTotalSize] at hsz
              subst hsz
              omega
            · have : ¬ sz + count_size content ct > m := fun hgt => hflush ⟨hgt, hc⟩
              omega

/-- Claim C5: in a run started from the empty chunk, every flushed
chunk holding more than one file has accumulated size (the sum of the sizes of its files under the active mode) at most the maximum; and the processing step of a normal file flushes the current chunk and starts a new one
before appending exactly when adding the file would push the running
total over the maximum and the chunk already holds at least one
file — otherwise it appends in place. -/
theorem c5_chunk_size_bound (m : Nat) (ct : Bool) :
    (∀ (files : List (String × Option (List Char))),
      ∀ e ∈ (assembleLoop m ct files [] 0 0).emitted,
        1 < e.2.length → chunkTotalSize ct e.2 ≤ m)
    ∧ (∀ (rel : String) (content : List Char)
        (rest : List (String × Option (List Char)))
        (chunk : List (String × List Char)) (sz idx : Nat),
        count_size content ct ≤ m →
        assembleLoop m ct ((rel, some content) :: rest) chunk sz idx
          = if sz + count_size content ct > m ∧ chunk ≠ [] then
              ⟨(idx, chunk) :: (assembleLoop m ct rest [(rel, content)]
                  (count_size content ct) (idx + 1)).emitted,
               (assembleLoop m ct rest [(rel, content)]
                  (count_size content ct) (idx + 1)).outcome⟩
            else assembleLoop m ct rest (chunk ++ [(rel, content)])
                (sz + count_size content ct) idx) := by
  constructor
  · intro files
    exact assembleLoop_chunk_bound m ct files [] 0 0 (by simp [chunkTotalSize]) (by simp)
  · intro rel content rest chunk sz idx hsize
    simp only [assembleLoop, if_neg (show ¬ count_size content ct > m by omega)]

/-- Claim C5 witness: two 5-byte files under max 1000 share one
flushed chunk of accumulated size 10 ≤ 1000. -/
theorem c5_chunk_size_bound_witness :
    chunkTotalSize false [("a.txt", "aaaaa".data), ("b.txt", "bbbbb".data)] ≤ 1000 :=
  (c5_chunk_size_bound 1000 false).1
    [("a.txt", some ("aaaaa".data)), ("b.txt", some ("bbbbb".data))]
    (0, [("a.txt", "aaaaa".data), ("b.txt", "bbbbb".data)]) (by decide) (by decide)

end Yek
